import Mathlib

/-!
Verification of the Mercari-JP MCP search server.

We shallowly embed the two source files:

* `server.py`: the tool `search_mercari_items_filtered`, which delegates to
  the external `mercari.search` call and then applies a local keyword /
  price filter with a result limit.  The upstream call is modelled as an
  `Except` value handed to the function (it either returns a candidate
  list or raises); the per-item filtering loop is embedded faithfully,
  including the early `break` once `limit` items are collected.

* `check_server.py`: the checker client, modelled as a function from the
  outcomes of the external interactions (listing tools, calling the tool)
  to the trace of observable checker events.

Python values are embedded as follows: optional attributes of the raw
items become `Option` fields; a price value that `float()` cannot parse
becomes `PriceVal.invalid`; parseable prices are integers (the bounds are
integers in JPY).  `str.split()` becomes splitting on whitespace and
dropping empty tokens; `str.lower()` becomes `String.toLower`; Python's
substring test `a in b` becomes list-infix containment of the character
lists.
-/

namespace MercariMCP

/-- A price attribute value as seen by `float(price)`: either parseable to
a number or invalid (raising `ValueError`/`TypeError`). -/
inductive PriceVal where
  | num (v : Int)
  | invalid
deriving DecidableEq, Repr

/-- A raw item from the external `mercari.search` call.  `getattr` with a
default models each attribute as optional. -/
structure CandidateItem where
  productName : Option String
  price : Option PriceVal
  productURL : Option String
deriving DecidableEq, Repr

/-- The request received by the tool (after pydantic defaults/validation). -/
structure SearchRequest where
  keyword : String
  exclude_keywords : String
  min_price : Option Int
  max_price : Option Int
  limit : Nat
deriving DecidableEq, Repr

/-- A dictionary appended to `items_found`. -/
structure ResultItem where
  name : String
  url : String
  price : Int
deriving DecidableEq, Repr

/-- Python `s.lower()`, embedded character by character over the string's
character list (structurally recursive, unlike core `String.toLower`). -/
def lowerStr (s : String) : String :=
  String.mk (s.data.map Char.toLower)

/-- Helper for `tokens`: scan the characters, `acc` holding the current
word reversed; whitespace ends a word, empty words are dropped. -/
def wordsAux : List Char → List Char → List String
  | [], acc => if acc.isEmpty then [] else [String.mk acc.reverse]
  | c :: cs, acc =>
    if c.isWhitespace then
      if acc.isEmpty then wordsAux cs []
      else String.mk acc.reverse :: wordsAux cs []
    else wordsAux cs (c :: acc)

/-- Python `s.split()` with no argument: split on whitespace runs,
dropping empty tokens. -/
def tokens (s : String) : List String :=
  wordsAux s.data []

/-- `required_terms = [term.lower() for term in keyword.split()]` -/
def requiredTerms (keyword : String) : List String :=
  (tokens keyword).map lowerStr

/-- `base_unwanted_terms = ["max", "plus", "11", "12", "13", "14", "16", "ジャンク"]` -/
def base_unwanted_terms : List String :=
  ["max", "plus", "11", "12", "13", "14", "16", "ジャンク"]

/-- `all_unwanted_terms`: base terms plus lowercased tokens of
`exclude_keywords`, deduplicated (`list(set(...))`), then with every
required term removed. -/
def allUnwantedTerms (keyword exclude_keywords : String) : List String :=
  let unwanted_terms_from_input := (tokens exclude_keywords).map lowerStr
  ((base_unwanted_terms ++ unwanted_terms_from_input).dedup).filter
    (fun t => decide (t ∉ requiredTerms keyword))

/-- Python substring test `term in hay` on strings. -/
def strContains (hay term : String) : Bool :=
  decide (term.data <:+: hay.data)

/-- The body of the per-item loop: validate the item's name and price,
test the name against required/unwanted terms and the price against the
bounds, and produce the result dictionary if all checks pass (`none`
means the item is skipped or filtered out). -/
def processItem (req : SearchRequest) (item : CandidateItem) : Option ResultItem :=
  match item.productName with
  | none => none
  | some product_name =>
    match item.price with
    | none => none
    | some PriceVal.invalid => none
    | some (PriceVal.num price) =>
      let lower_product_name := lowerStr product_name
      let name_contains_desired_keywords :=
        (requiredTerms req.keyword).all (fun term => strContains lower_product_name term)
      let name_contains_unwanted_terms :=
        (allUnwantedTerms req.keyword req.exclude_keywords).any
          (fun term => strContains lower_product_name term)
      if name_contains_desired_keywords && !name_contains_unwanted_terms then
        let min_check_passed :=
          match req.min_price with
          | none => true
          | some m => decide (m ≤ price)
        let max_check_passed :=
          match req.max_price with
          | none => true
          | some M => decide (price ≤ M)
        if min_check_passed && max_check_passed then
          some { name := product_name
                 url := item.productURL.getD "N/A"
                 price := price }
        else none
      else none

/-- The scanning loop over `search_results`: accumulate accepted items and
`break` as soon as `len(items_found) >= limit` after an append. -/
def filterLoop (accept : CandidateItem → Option ResultItem) (limit : Nat) :
    List CandidateItem → List ResultItem → List ResultItem
  | [], acc => acc.reverse
  | item :: rest, acc =>
    match accept item with
    | none => filterLoop accept limit rest acc
    | some r =>
      let acc' := r :: acc
      if limit ≤ acc'.length then acc'.reverse
      else filterLoop accept limit rest acc'

/-- The filtering phase of the tool on an already-obtained candidate list. -/
def searchFiltered (req : SearchRequest) (items : List CandidateItem) : List ResultItem :=
  filterLoop (processItem req) req.limit items []

/-- The whole tool body: the upstream `mercari.search` call either raises
(`Except.error`, re-raised by the `except` clause) or yields the candidate
list, which is then filtered. -/
def search_mercari_items_filtered (req : SearchRequest)
    (upstream : Except String (List CandidateItem)) :
    Except String (List ResultItem) :=
  match upstream with
  | Except.error e => Except.error e
  | Except.ok search_results => Except.ok (searchFiltered req search_results)

/-! ### Checker client (`check_server.py`) -/

/-- Observable events of the checker script, in order of occurrence. -/
inductive CheckerEvent where
  | listedTools
  | calledTool (name : String)
  | reportedFailure
  | reportedSuccess
deriving DecidableEq, Repr

/-- Outcome of the `call_tool` round trip, were it to happen. -/
inductive CallOutcome where
  | ok
  | clientError
  | unexpectedError
deriving DecidableEq, Repr

/-- `TOOL_TO_CALL = "search_mercari_jp"` -/
def TOOL_TO_CALL : String := "search_mercari_jp"

/-- The checker's behaviour after a successful connection: list the tools
(the listing may itself fail), check membership of `TOOL_TO_CALL`, and
only in the found case perform the call; every failure path reports a
failure diagnostic and terminates. -/
def check_server (listResult : Except String (List String))
    (callResult : CallOutcome) : List CheckerEvent :=
  match listResult with
  | Except.error _ => [CheckerEvent.reportedFailure]
  | Except.ok tool_names =>
    if TOOL_TO_CALL ∈ tool_names then
      CheckerEvent.listedTools :: CheckerEvent.calledTool TOOL_TO_CALL ::
        (match callResult with
         | CallOutcome.ok => [CheckerEvent.reportedSuccess]
         | CallOutcome.clientError => [CheckerEvent.reportedFailure]
         | CallOutcome.unexpectedError => [CheckerEvent.reportedFailure])
    else
      [CheckerEvent.listedTools, CheckerEvent.reportedFailure]

/-! ### Helper lemmas -/

theorem strContains_iff (hay term : String) :
    strContains hay term = true ↔ term.data <:+: hay.data := by
  simp [strContains]

theorem mem_allUnwantedTerms {keyword exclude_keywords t : String} :
    t ∈ allUnwantedTerms keyword exclude_keywords ↔
      ((t ∈ base_unwanted_terms ∨ t ∈ (tokens exclude_keywords).map lowerStr) ∧
        t ∉ requiredTerms keyword) := by
  simp [allUnwantedTerms, List.mem_filter, List.mem_dedup]

theorem processItem_noName (req : SearchRequest) (pr : Option PriceVal)
    (u : Option String) : processItem req ⟨none, pr, u⟩ = none := rfl

theorem processItem_noPrice (req : SearchRequest) (n : Option String)
    (u : Option String) : processItem req ⟨n, none, u⟩ = none := by
  cases n <;> rfl

theorem processItem_badPrice (req : SearchRequest) (n : Option String)
    (u : Option String) : processItem req ⟨n, some PriceVal.invalid, u⟩ = none := by
  cases n <;> rfl

theorem ite_bool_eq_some_iff (c : Bool) (o : Option ResultItem) (r : ResultItem) :
    (if c then o else none) = some r ↔ (c = true ∧ o = some r) := by
  cases c <;> simp

/-- Characterization of the per-item decision on a well-formed item:
accepted (with a given output) exactly when the name contains every
required term, none of the unwanted terms, and the price is inside both
given bounds. -/
theorem processItem_eq_some_iff (req : SearchRequest) (pname : String) (p : Int)
    (u : Option String) (r : ResultItem) :
    processItem req ⟨some pname, some (PriceVal.num p), u⟩ = some r ↔
      ((∀ t ∈ requiredTerms req.keyword, t.data <:+: (lowerStr pname).data) ∧
       (∀ t ∈ allUnwantedTerms req.keyword req.exclude_keywords,
          ¬ t.data <:+: (lowerStr pname).data) ∧
       (∀ m, req.min_price = some m → m ≤ p) ∧
       (∀ M, req.max_price = some M → p ≤ M) ∧
       r = ⟨pname, u.getD "N/A", p⟩) := by
  have hmin : ((match req.min_price with
      | none => true
      | some m => decide (m ≤ p)) = true) ↔ (∀ m, req.min_price = some m → m ≤ p) := by
    cases req.min_price <;> simp
  have hmax : ((match req.max_price with
      | none => true
      | some M => decide (p ≤ M)) = true) ↔ (∀ M, req.max_price = some M → p ≤ M) := by
    cases req.max_price <;> simp
  simp only [processItem]
  rw [ite_bool_eq_some_iff, ite_bool_eq_some_iff]
  rw [Bool.and_eq_true, Bool.and_eq_true, Bool.not_eq_true']
  rw [hmin, hmax]
  simp only [List.all_eq_true, List.any_eq_false, strContains_iff, Option.some.injEq]
  constructor
  · rintro ⟨⟨h1, h2⟩, ⟨h3, h4⟩, h5⟩
    exact ⟨h1, h2, h3, h4, h5.symm⟩
  · rintro ⟨h1, h2, h3, h4, h5⟩
    exact ⟨⟨h1, h2⟩, ⟨h3, h4⟩, h5.symm⟩

theorem filterLoop_eq (accept : CandidateItem → Option ResultItem) (limit : Nat)
    (items : List CandidateItem) :
    ∀ acc : List ResultItem, acc.length < limit →
      filterLoop accept limit items acc =
        acc.reverse ++ (items.filterMap accept).take (limit - acc.length) := by
  induction items with
  | nil =>
    intro acc _
    simp [filterLoop]
  | cons item rest ih =>
    intro acc h
    cases haccept : accept item with
    | none =>
      simp only [filterLoop, haccept]
      rw [ih acc h, List.filterMap_cons_none haccept]
    | some r =>
      simp only [filterLoop, haccept]
      by_cases hb : limit ≤ (r :: acc).length
      · rw [if_pos hb]
        have hlim : limit - acc.length = 1 := by
          simp only [List.length_cons] at hb
          omega
        rw [List.filterMap_cons_some haccept, hlim, List.take_succ_cons, List.take_zero]
        simp
      · rw [if_neg hb]
        push_neg at hb
        rw [ih (r :: acc) hb]
        have hlim : limit - acc.length = (limit - (r :: acc).length) + 1 := by
          simp only [List.length_cons] at hb ⊢
          omega
        rw [List.filterMap_cons_some haccept, hlim, List.take_succ_cons]
        simp

theorem filterLoop_limit_zero (accept : CandidateItem → Option ResultItem)
    (items : List CandidateItem) :
    filterLoop accept 0 items [] = (items.filterMap accept).take 1 := by
  induction items with
  | nil => simp [filterLoop]
  | cons item rest ih =>
    cases haccept : accept item with
    | none =>
      simp only [filterLoop, haccept]
      rw [ih, List.filterMap_cons_none haccept]
    | some r =>
      simp only [filterLoop, haccept]
      rw [if_pos (by simp)]
      rw [List.filterMap_cons_some haccept, List.take_succ_cons, List.take_zero]
      simp

/-- Closed form of the scanning loop: the accepted items in input order,
truncated at the limit (a limit of `0`, unreachable through the tool's
validated schema, still lets the first accepted item through because the
break test runs only after an append). -/
theorem searchFiltered_eq (req : SearchRequest) (items : List CandidateItem) :
    searchFiltered req items =
      (items.filterMap (processItem req)).take (max req.limit 1) := by
  rcases Nat.eq_zero_or_pos req.limit with h0 | hpos
  · rw [searchFiltered, h0, filterLoop_limit_zero]
    simp [h0]
  · rw [searchFiltered, filterLoop_eq (processItem req) req.limit items []
      (by simpa using hpos)]
    simp [Nat.max_eq_left hpos]

/-! ### Claim theorems -/

/-- C1: for every request and every candidate item with a product name and
a numerically parseable price, the item is accepted by the per-item filter
(and hence included in the result, limit permitting) iff its lowercased
name contains every required term as a substring, contains none of the
unwanted terms, and its price respects the inclusive lower and upper
bounds whenever those are given. -/
theorem item_accepted_iff_filters_pass (req : SearchRequest) (item : CandidateItem)
    (pname : String) (p : Int)
    (hn : item.productName = some pname)
    (hp : item.price = some (PriceVal.num p)) :
    (∃ r, processItem req item = some r) ↔
      ((∀ t ∈ requiredTerms req.keyword, t.data <:+: (lowerStr pname).data) ∧
       (∀ t ∈ allUnwantedTerms req.keyword req.exclude_keywords,
          ¬ t.data <:+: (lowerStr pname).data) ∧
       (∀ m, req.min_price = some m → m ≤ p) ∧
       (∀ M, req.max_price = some M → p ≤ M)) := by
  obtain ⟨n, pr, u⟩ := item
  have hn' : n = some pname := hn
  have hp' : pr = some (PriceVal.num p) := hp
  subst hn' hp'
  simp only [processItem_eq_some_iff]
  constructor
  · rintro ⟨r, h1, h2, h3, h4, -⟩
    exact ⟨h1, h2, h3, h4⟩
  · rintro ⟨h1, h2, h3, h4⟩
    exact ⟨_, h1, h2, h3, h4, rfl⟩

theorem item_accepted_iff_filters_pass_witness :
    ∃ r, processItem ⟨"Pro", "", some 1, some 9, 20⟩
        ⟨some "iPhone Pro", some (PriceVal.num 5), none⟩ = some r :=
  (item_accepted_iff_filters_pass ⟨"Pro", "", some 1, some 9, 20⟩
      ⟨some "iPhone Pro", some (PriceVal.num 5), none⟩ "iPhone Pro" 5 rfl rfl).mpr
    ⟨by decide, by decide,
     by intro m hm; injection hm with h; subst h; decide,
     by intro M hM; injection hM with h; subst h; decide⟩

/-- C2: with `limit ≥ 1` (guaranteed by the tool's schema), the result
list never exceeds `limit` items, and once `limit` items have been
accepted the scan stops: further candidates cannot change the result. -/
theorem result_length_at_most_limit (req : SearchRequest) (h : 1 ≤ req.limit)
    (items extra : List CandidateItem) :
    (searchFiltered req items).length ≤ req.limit ∧
      ((searchFiltered req items).length = req.limit →
        searchFiltered req (items ++ extra) = searchFiltered req items) := by
  have hmax : max req.limit 1 = req.limit := Nat.max_eq_left h
  constructor
  · rw [searchFiltered_eq, hmax, List.length_take]
    exact Nat.min_le_left _ _
  · intro hlen
    rw [searchFiltered_eq, hmax, List.length_take] at hlen
    have hle : req.limit ≤ (items.filterMap (processItem req)).length := by omega
    rw [searchFiltered_eq, searchFiltered_eq, hmax, List.filterMap_append,
      List.take_append_of_le_length hle]

theorem result_length_at_most_limit_witness :
    (searchFiltered ⟨"a", "", none, none, 1⟩
        [⟨some "a", some (PriceVal.num 1), none⟩]).length ≤ 1 ∧
      ((searchFiltered ⟨"a", "", none, none, 1⟩
          [⟨some "a", some (PriceVal.num 1), none⟩]).length = 1 →
        searchFiltered ⟨"a", "", none, none, 1⟩
            ([⟨some "a", some (PriceVal.num 1), none⟩] ++
              [⟨some "b a", some (PriceVal.num 2), none⟩]) =
          searchFiltered ⟨"a", "", none, none, 1⟩
            [⟨some "a", some (PriceVal.num 1), none⟩]) :=
  result_length_at_most_limit ⟨"a", "", none, none, 1⟩ (by decide)
    [⟨some "a", some (PriceVal.num 1), none⟩]
    [⟨some "b a", some (PriceVal.num 2), none⟩]

/-- C3: an item with a missing name, missing price or unparseable price is
never accepted, and removing it from the candidate list leaves the result
unchanged — the other items are still processed, under every request. -/
theorem invalid_item_skipped (item : CandidateItem)
    (h : item.productName = none ∨ item.price = none ∨
      item.price = some PriceVal.invalid) :
    (∀ req, processItem req item = none) ∧
      (∀ req pre post,
        searchFiltered req (pre ++ item :: post) = searchFiltered req (pre ++ post)) := by
  obtain ⟨n, pr, u⟩ := item
  have hnone : ∀ req : SearchRequest, processItem req ⟨n, pr, u⟩ = none := by
    intro req
    rcases h with h | h | h
    · have hn : n = none := h
      subst hn
      exact processItem_noName req pr u
    · have hpr : pr = none := h
      subst hpr
      exact processItem_noPrice req n u
    · have hpr : pr = some PriceVal.invalid := h
      subst hpr
      exact processItem_badPrice req n u
  refine ⟨hnone, ?_⟩
  intro req pre post
  rw [searchFiltered_eq, searchFiltered_eq, List.filterMap_append, List.filterMap_append,
    List.filterMap_cons_none (hnone req)]

theorem invalid_item_skipped_witness :
    processItem ⟨"a", "", none, none, 20⟩ ⟨none, some (PriceVal.num 1), none⟩ = none :=
  (invalid_item_skipped ⟨none, some (PriceVal.num 1), none⟩ (Or.inl rfl)).1
    ⟨"a", "", none, none, 20⟩

/-- C4: a term that is required (a lowercased token of the keyword) is
never in the unwanted-term set, whatever `exclude_keywords` says and even
if it is in the fixed base exclusion set. -/
theorem required_term_not_unwanted (keyword exclude_keywords t : String)
    (h : t ∈ requiredTerms keyword) :
    t ∉ allUnwantedTerms keyword exclude_keywords := by
  intro hmem
  exact (mem_allUnwantedTerms.mp hmem).2 h

theorem required_term_not_unwanted_witness :
    "max" ∉ allUnwantedTerms "iPhone Pro Max" "max ケース" :=
  required_term_not_unwanted "iPhone Pro Max" "max ケース" "max" (by decide)

/-- C5: the result list is an order-preserving subsequence of the
projections of the candidate items, in the order the external search
produced them. -/
theorem result_preserves_order (req : SearchRequest) (items : List CandidateItem) :
    (searchFiltered req items).Sublist (items.filterMap (processItem req)) := by
  rw [searchFiltered_eq]
  exact List.take_sublist _ _

/-- C6: if the upstream `mercari.search` call raises, the tool re-raises
that failure to its caller and produces no (partial) result list. -/
theorem upstream_failure_propagates (req : SearchRequest) (e : String) :
    search_mercari_items_filtered req (Except.error e) = Except.error e := rfl

/-- C7: when both bounds are given with `min_price > max_price`, the
request is not rejected up front; it returns the empty list on every
candidate sequence, since no price satisfies both inclusive bounds. -/
theorem inconsistent_bounds_empty_result (req : SearchRequest) (m M : Int)
    (hm : req.min_price = some m) (hM : req.max_price = some M) (hlt : M < m)
    (items : List CandidateItem) :
    search_mercari_items_filtered req (Except.ok items) = Except.ok [] := by
  have hnone : ∀ item, processItem req item = none := by
    intro item
    obtain ⟨n, pr, u⟩ := item
    cases n with
    | none => exact processItem_noName req pr u
    | some pname =>
      cases pr with
      | none => exact processItem_noPrice req _ u
      | some pv =>
        cases pv with
        | invalid => exact processItem_badPrice req _ u
        | num p =>
          cases hpi : processItem req ⟨some pname, some (PriceVal.num p), u⟩ with
          | none => rfl
          | some r =>
            exfalso
            obtain ⟨-, -, h3, h4, -⟩ := (processItem_eq_some_iff req pname p u r).mp hpi
            have hmp := h3 m hm
            have hMp := h4 M hM
            omega
  have hfm : items.filterMap (processItem req) = [] :=
    List.filterMap_eq_nil_iff.mpr (fun a _ => hnone a)
  simp [search_mercari_items_filtered, searchFiltered_eq, hfm]

theorem inconsistent_bounds_empty_result_witness :
    search_mercari_items_filtered ⟨"a", "", some 10, some 5, 20⟩
        (Except.ok [⟨some "a", some (PriceVal.num 7), none⟩]) = Except.ok [] :=
  inconsistent_bounds_empty_result ⟨"a", "", some 10, some 5, 20⟩ 10 5 rfl rfl
    (by decide) [⟨some "a", some (PriceVal.num 7), none⟩]

/-- C8: when the listed tool names do not contain `search_mercari_jp`, the
checker's trace contains no tool call and reports a failure. -/
theorem missing_tool_no_call (tool_names : List String) (cr : CallOutcome)
    (h : TOOL_TO_CALL ∉ tool_names) :
    (∀ s, CheckerEvent.calledTool s ∉ check_server (Except.ok tool_names) cr) ∧
      CheckerEvent.reportedFailure ∈ check_server (Except.ok tool_names) cr := by
  simp [check_server, h]

theorem missing_tool_no_call_witness :
    (∀ s, CheckerEvent.calledTool s ∉
        check_server (Except.ok ["other_tool"]) CallOutcome.ok) ∧
      CheckerEvent.reportedFailure ∈
        check_server (Except.ok ["other_tool"]) CallOutcome.ok :=
  missing_tool_no_call ["other_tool"] CallOutcome.ok (by decide)

/-- C9: a missing product URL never excludes an item: an accepted item's
`url` field is the `productURL` attribute when present and the literal
`"N/A"` when absent, and replacing the URL attribute never changes whether
the item is accepted. -/
theorem missing_url_defaults_na (req : SearchRequest) (item : CandidateItem)
    (r : ResultItem) (h : processItem req item = some r) :
    r.url = item.productURL.getD "N/A" ∧
      (∀ u, ∃ rr, processItem req { item with productURL := u } = some rr ∧
        rr.url = u.getD "N/A") := by
  obtain ⟨n, pr, u0⟩ := item
  cases n with
  | none =>
    rw [processItem_noName] at h
    exact absurd h (by simp)
  | some pname =>
    cases pr with
    | none =>
      rw [processItem_noPrice] at h
      exact absurd h (by simp)
    | some pv =>
      cases pv with
      | invalid =>
        rw [processItem_badPrice] at h
        exact absurd h (by simp)
      | num p =>
        obtain ⟨h1, h2, h3, h4, h5⟩ := (processItem_eq_some_iff req pname p u0 r).mp h
        subst h5
        refine ⟨rfl, ?_⟩
        intro u
        exact ⟨⟨pname, u.getD "N/A", p⟩,
          (processItem_eq_some_iff req pname p u _).mpr ⟨h1, h2, h3, h4, rfl⟩, rfl⟩

theorem missing_url_defaults_na_witness :
    ((⟨"a", "N/A", 5⟩ : ResultItem).url =
        ((⟨some "a", some (PriceVal.num 5), none⟩ : CandidateItem).productURL).getD "N/A") ∧
      (∀ u, ∃ rr, processItem ⟨"a", "", none, none, 20⟩
          { (⟨some "a", some (PriceVal.num 5), none⟩ : CandidateItem) with
            productURL := u } = some rr ∧ rr.url = u.getD "N/A") :=
  missing_url_defaults_na ⟨"a", "", none, none, 20⟩
    ⟨some "a", some (PriceVal.num 5), none⟩ ⟨"a", "N/A", 5⟩ (by decide)

/-- C10: the fixed base exclusion set applies even when the caller passes
an empty `exclude_keywords`: a valid item whose lowercased name contains a
base term that is not among the required terms is rejected. -/
theorem base_term_excludes_without_input (req : SearchRequest) (item : CandidateItem)
    (pname : String) (p : Int) (t : String)
    (hn : item.productName = some pname)
    (hp : item.price = some (PriceVal.num p))
    (_he : req.exclude_keywords = "")
    (ht : t ∈ base_unwanted_terms)
    (htr : t ∉ requiredTerms req.keyword)
    (hc : t.data <:+: (lowerStr pname).data) :
    processItem req item = none := by
  obtain ⟨n, pr, u⟩ := item
  have hn' : n = some pname := hn
  have hp' : pr = some (PriceVal.num p) := hp
  subst hn' hp'
  cases hpi : processItem req ⟨some pname, some (PriceVal.num p), u⟩ with
  | none => rfl
  | some r =>
    exfalso
    obtain ⟨-, h2, -, -, -⟩ := (processItem_eq_some_iff req pname p u r).mp hpi
    exact h2 t (mem_allUnwantedTerms.mpr ⟨Or.inl ht, htr⟩) hc

theorem base_term_excludes_without_input_witness :
    processItem ⟨"iphone15", "", none, none, 20⟩
        ⟨some "iPhone15 Pro Max", some (PriceVal.num 5), none⟩ = none :=
  base_term_excludes_without_input ⟨"iphone15", "", none, none, 20⟩
    ⟨some "iPhone15 Pro Max", some (PriceVal.num 5), none⟩ "iPhone15 Pro Max" 5 "max"
    rfl rfl rfl (by decide) (by decide) (by decide)

end MercariMCP
